import Mathlib

/-!
Verification development for the futures roll / back-adjustment pipeline
(`generic_roll.py` and `roll_functions.py`).

Modelling conventions:
* A pandas timestamp is a pair `(day, time)`: the calendar day as a count of
  days since 2000-01-01 (which was a Saturday) and a nonnegative time-of-day.
  Ordering is lexicographic; `.date` is the `day` component; a roll date
  produced by `_get_near_roll_date` is a midnight, i.e. a bare day number.
* Prices (`open/high/low/close`) are `Option ℚ`: `none` plays the role of a
  float NaN, and arithmetic on prices propagates `none` exactly as NaN
  propagates through pandas arithmetic; `np.where(np.isnan x, 0, x)` becomes
  `Option.getD x 0`.  Pandas `!=` between a value and the NaN produced by
  `shift(-1)` past the end of the series evaluates to `True`, which is why the
  last row always counts as a roll day.
* The proleptic Gregorian calendar is embedded for days from 2000-01-01 on
  (all decoded contract years are ≥ the bar year, and bars live at day ≥ 0).
* `pandas.sort_values` / `sort_index` on the selection keys are modelled as a
  stable sort (stable insertion sort) by the same keys.
-/

/-- Gregorian leap-year predicate. -/
def isLeap (y : ℕ) : Bool := y % 4 == 0 && (y % 100 != 0 || y % 400 == 0)

/-- Number of days in year `y`. -/
def daysInYear (y : ℕ) : ℕ := if isLeap y then 366 else 365

/-- Number of days in month `m` of year `y` (months are 1..12). -/
def daysInMonth (y m : ℕ) : ℕ :=
  if m = 2 then (if isLeap y then 29 else 28)
  else if m = 4 ∨ m = 6 ∨ m = 9 ∨ m = 11 then 30 else 31

/-- Number of Gregorian leap years in `[1, y-1]`. -/
def leapsToYear (y : ℕ) : ℕ := (y - 1) / 4 - (y - 1) / 100 + (y - 1) / 400

/-- Days from 2000-01-01 to the first day of year `y` (for `y ≥ 2000`). -/
def daysBeforeYear (y : ℕ) : ℕ := 365 * (y - 2000) + (leapsToYear y - leapsToYear 2000)

/-- Days from the first of the year to the first of month `m`. -/
def daysBeforeMonth (y m : ℕ) : ℕ :=
  ((List.range (m - 1)).map (fun k => daysInMonth y (k + 1))).sum

/-- Epoch day (days since 2000-01-01) of the calendar date `y-m-d`. -/
def epochDayOfDate (y m d : ℕ) : ℕ := daysBeforeYear y + daysBeforeMonth y m + (d - 1)

/-- Day of week of an epoch day, Python convention: Monday = 0 … Sunday = 6.
Day 0 (2000-01-01) was a Saturday (= 5). -/
def weekdayOfDay (d : ℤ) : ℤ := (d + 5) % 7

/-- Strip whole years off a day count, starting from year 2000; the fuel
argument makes the recursion structural and is always sufficient because a
year has at least 365 days.  Returns the year and the remaining day count. -/
def yearStep : ℕ → ℕ → ℕ → ℕ × ℕ
  | 0, y, r => (y, r)
  | fuel + 1, y, r =>
      if daysInYear y ≤ r then yearStep fuel (y + 1) (r - daysInYear y) else (y, r)

/-- Strip whole months off a within-year day count, starting from month `m`. -/
def monthStep : ℕ → ℕ → ℕ → ℕ → ℕ
  | 0, m, _, _ => m
  | fuel + 1, m, y, r =>
      if daysInMonth y m ≤ r then monthStep fuel (m + 1) y (r - daysInMonth y m) else m

/-- Calendar year of an epoch day (valid from day 0 = 2000-01-01 on). -/
def yearOfDay (d : ℤ) : ℕ := (yearStep (d.toNat + 1) 2000 d.toNat).1

/-- Calendar month (1..12) of an epoch day. -/
def monthOfDay (d : ℤ) : ℕ :=
  let p := yearStep (d.toNat + 1) 2000 d.toNat
  monthStep 11 1 p.1 p.2

/-- A timezone-aware pandas timestamp: calendar day plus time of day.
Ordering is lexicographic; `.date` is the `day` component. -/
structure Ts where
  day : ℤ
  time : ℕ
deriving DecidableEq, Repr

/-- Strict timestamp order (`<` on pandas timestamps). -/
def Ts.ltb (a b : Ts) : Bool := a.day < b.day || (a.day == b.day && a.time < b.time)

/-- Non-strict timestamp order (`<=` on pandas timestamps). -/
def Ts.leb (a b : Ts) : Bool := a.day < b.day || (a.day == b.day && a.time ≤ b.time)

/-- One raw input row: timestamp index, contract symbol, OHLC prices.
`none` prices model float NaNs. -/
structure Bar where
  ts : Ts
  symbol : List Char
  open_ : Option ℚ
  high : Option ℚ
  low : Option ℚ
  close : Option ℚ
deriving DecidableEq, Repr

/-- `FUTURE_MONTH_MAP`: the futures month-code table; characters outside the
table have no entry (a lookup failure models the Python `KeyError`). -/
def FUTURE_MONTH_MAP : Char → Option ℕ
  | 'F' => some 1
  | 'G' => some 2
  | 'H' => some 3
  | 'J' => some 4
  | 'K' => some 5
  | 'M' => some 6
  | 'N' => some 7
  | 'Q' => some 8
  | 'U' => some 9
  | 'V' => some 10
  | 'X' => some 11
  | 'Z' => some 12
  | _ => none

/-- Python `int(c)` on a single character: the digit value, or a failure
(`ValueError`) when the character is not one of the decimal digits
`'0'`..`'9'` (ASCII codes 48..57). -/
def charDigit (c : Char) : Option ℕ :=
  if 48 ≤ c.toNat ∧ c.toNat ≤ 57 then some (c.toNat - 48) else none

/-- `_get_contract_year`: decode the contract year from the symbol's 4th
character and the bar's own year, choosing between the current and the next
decade.  `math.ceil (y / 10) * 10` is `((y + 9) / 10) * 10` on naturals.
A non-digit 4th character is a `ValueError`, modelled as `none`.
The same function appears verbatim in both source files. -/
def _get_contract_year (b : Bar) : Option ℕ :=
  (b.symbol.get? 3).bind fun c =>
    (charDigit c).map fun contract_year_first_digit =>
      let curr_year := yearOfDay b.ts.day
      if contract_year_first_digit < curr_year % 10 then
        ((curr_year + 9) / 10) * 10 + contract_year_first_digit
      else
        (curr_year / 10) * 10 + contract_year_first_digit

/-- The list of business days (Monday–Friday) of month `m` of year `y`, as
epoch days in increasing order — `pd.bdate_range` over the month. -/
def bdaysOfMonth (y m : ℕ) : List ℕ :=
  ((List.range (daysInMonth y m)).map (fun k => epochDayOfDate y m (k + 1))).filter
    (fun ed => weekdayOfDay (ed : ℤ) < 5)

/-- `_get_near_roll_date`: the 3rd-from-last business day of the contract
month, minus `DAYS_BEFORE_EXPIRY` calendar days, moved one day earlier when
the result is a Saturday (`weekday() == 5`) — and, as in the source, *not*
when it is a Sunday.  The result is a midnight, returned as a bare day. -/
def _get_near_roll_date (contract_year contract_month : ℕ) (DAYS_BEFORE_EXPIRY : ℕ) : ℤ :=
  let bdays := bdaysOfMonth contract_year contract_month
  let third : ℤ := ((bdays.get? (bdays.length - 3)).getD 0 : ℕ)
  let roll_date := third - (DAYS_BEFORE_EXPIRY : ℤ)
  if weekdayOfDay roll_date = 5 then roll_date - 1 else roll_date

/-- The roll-date rule as the specification states it: the same computation
but moved one day earlier when the result falls on *either* weekend day
(Saturday or Sunday). -/
def near_roll_date_spec (contract_year contract_month : ℕ) (DAYS_BEFORE_EXPIRY : ℕ) : ℤ :=
  let bdays := bdaysOfMonth contract_year contract_month
  let third : ℤ := ((bdays.get? (bdays.length - 3)).getD 0 : ℕ)
  let roll_date := third - (DAYS_BEFORE_EXPIRY : ℤ)
  if weekdayOfDay roll_date = 5 ∨ weekdayOfDay roll_date = 6 then roll_date - 1 else roll_date

/-- A `Bar` together with the columns added by `combine_features`.
`contract_roll_date` is populated only in near-roll mode (`none` otherwise,
and a `none` compares like a pandas `NaT`: every comparison is false). -/
structure AnnBar extends Bar where
  contract_year : ℕ
  contract_month : ℕ
  expiry_length : ℤ
  contract_roll_date : Option ℤ
deriving DecidableEq, Repr

/-- Annotate one 4-character row: `_get_contract_year`, the month-table
lookup, `_get_expiry_length`, and optionally `_get_near_roll_date`.  Any
decode failure (bad year digit, month code outside the table) is an
uncaught Python exception, modelled as `none`. -/
def annotateRow (near_roll_mode : Bool) (DAYS_BEFORE_EXPIRY : ℕ) (b : Bar) : Option AnnBar :=
  (_get_contract_year b).bind fun cy =>
    ((b.symbol.get? 2).bind FUTURE_MONTH_MAP).map fun cm =>
      { toBar := b
        contract_year := cy
        contract_month := cm
        expiry_length :=
          ((cy : ℤ) - (yearOfDay b.ts.day : ℤ)) * 12 + (cm : ℤ) - (monthOfDay b.ts.day : ℤ)
        contract_roll_date :=
          if near_roll_mode then some (_get_near_roll_date cy cm DAYS_BEFORE_EXPIRY) else none }

/-- Row-by-row annotation of a whole table; the first failing row aborts the
computation (the Python exception propagates out of `df.apply`). -/
def annotateAll (near_roll_mode : Bool) (DAYS_BEFORE_EXPIRY : ℕ) : List Bar → Option (List AnnBar)
  | [] => some []
  | b :: l =>
      match annotateRow near_roll_mode DAYS_BEFORE_EXPIRY b, annotateAll near_roll_mode DAYS_BEFORE_EXPIRY l with
      | some a, some r => some (a :: r)
      | _, _ => none

/-- `combine_features`: keep only 4-character (vanilla) symbols, then add
`contract_year`, `contract_month`, `expiry_length` and (in near-roll mode)
`contract_roll_date`. -/
def combine_features (df : List Bar) (near_roll_mode : Bool := false)
    (DAYS_BEFORE_EXPIRY : ℕ := 3) : Option (List AnnBar) :=
  annotateAll near_roll_mode DAYS_BEFORE_EXPIRY (df.filter (fun b => b.symbol.length == 4))

/-- The calendar date of a row (the generic selector's `date` column and the
`.date` of the near-roll selector's timestamp index). -/
def dateOf (b : AnnBar) : ℤ := b.ts.day

/-- The `(date, expiry_length)` lexicographic sort key of
`sort_values(by=['date', 'expiry_length'])`, as a strict order. -/
def dateExpiryLt (a b : AnnBar) : Bool :=
  dateOf a < dateOf b || (dateOf a == dateOf b && a.expiry_length < b.expiry_length)

/-- Stable insertion of `a` into a sorted list: `a` passes over exactly the
elements strictly smaller in the key, so equal-key elements keep their
original relative order (pandas' stable lexicographic sort). -/
def insertSorted (lt : AnnBar → AnnBar → Bool) (a : AnnBar) : List AnnBar → List AnnBar
  | [] => [a]
  | b :: l => if lt b a then b :: insertSorted lt a l else a :: b :: l

/-- Stable sort by a strict key order. -/
def sortByKey (lt : AnnBar → AnnBar → Bool) : List AnnBar → List AnnBar
  | [] => []
  | a :: l => insertSorted lt a (sortByKey lt l)

/-- `drop_duplicates(subset='date', keep='first')`: keep a row iff its date
has not been seen on an earlier row. -/
def dropDupDates (seen : List ℤ) : List AnnBar → List AnnBar
  | [] => []
  | b :: l =>
      if dateOf b ∈ seen then dropDupDates seen l
      else b :: dropDupDates (dateOf b :: seen) l

/-- The generic selector of `create_rolled_series`: filter to
`expiry_length ∈ {length, length+1}`, stable-sort by `(date, expiry_length)`,
and keep the first row of each date. -/
def selectGeneric (df : List AnnBar) (length : ℤ) : List AnnBar :=
  dropDupDates []
    (sortByKey dateExpiryLt
      (df.filter (fun b => b.expiry_length == length || b.expiry_length == length + 1)))

/-- The open/close gap `open.shift(-1) - close` at row `i`: `none` when there
is no next row or when either price of the pair is missing. -/
def rollGap (l : List AnnBar) (i : ℕ) : Option ℚ :=
  match l.get? (i + 1), l.get? i with
  | some nxt, some cur =>
      match nxt.open_, cur.close with
      | some o, some c => some (o - c)
      | _, _ => none
  | _, _ => none

/-- Generic roll-day flag: `symbol != symbol.shift(-1)`.  On the last row the
shifted symbol is NaN and the pandas comparison is `True`. -/
def isRollDayG (l : List AnnBar) (i : ℕ) : Bool :=
  match l.get? i, l.get? (i + 1) with
  | some cur, some nxt => cur.symbol ≠ nxt.symbol
  | some _, none => true
  | none, _ => false

/-- Near-roll roll-day flag: the row's date equals the date of its own
`contract_roll_date` (`NaT`, i.e. `none`, never compares equal). -/
def isRollDayN (l : List AnnBar) (i : ℕ) : Bool :=
  match l.get? i with
  | some cur =>
      match cur.contract_roll_date with
      | some r => dateOf cur == r
      | none => false
  | none => false

/-- Per-row adjustment of the generic engine after the `np.where(isnan, 0, ·)`
fill: the gap on a roll day (or 0 when the gap is NaN), 0 otherwise. -/
def adjG (l : List AnnBar) (i : ℕ) : ℚ :=
  if isRollDayG l i then (rollGap l i).getD 0 else 0

/-- Per-row adjustment of the near-roll engine. -/
def adjN (l : List AnnBar) (i : ℕ) : ℚ :=
  if isRollDayN l i then (rollGap l i).getD 0 else 0

/-- `f i + f (i+1) + ⋯ + f (i+k-1)`. -/
def sumFrom (f : ℕ → ℚ) : ℕ → ℕ → ℚ
  | _, 0 => 0
  | i, k + 1 => f i + sumFrom f (i + 1) k

/-- Total adjustment of row `i` in the generic engine: the reverse cumulative
sum of the per-row adjustments, i.e. the sum over all rows at or after `i`. -/
def totalAdjG (l : List AnnBar) (i : ℕ) : ℚ := sumFrom (adjG l) i (l.length - i)

/-- Total adjustment of row `i` in the near-roll engine: the reverse
cumulative sum *shifted one row earlier* (`.shift(-1)`, NaN at the end
filled with 0): the sum over all rows strictly after `i`. -/
def totalAdjN (l : List AnnBar) (i : ℕ) : ℚ := sumFrom (adjN l) (i + 1) (l.length - (i + 1))

/-- An output row: the selected bar with adjusted prices plus the
`adjustment` audit column. -/
structure AdjBar extends AnnBar where
  adjustment : ℚ
deriving DecidableEq, Repr

/-- Shift every price of a bar by `t` (`none` prices stay `none`, as NaN + t
is NaN). -/
def shiftPrices (b : AnnBar) (t : ℚ) : AnnBar :=
  { b with
    open_ := b.open_.map (· + t)
    high := b.high.map (· + t)
    low := b.low.map (· + t)
    close := b.close.map (· + t) }

/-- Walk the selected series `l` (whose suffix starting at position `i` is the
last argument), recording each row's per-row adjustment and adding its total
adjustment to each price — the generic engine's body. -/
def applyAdjGAux (l : List AnnBar) : ℕ → List AnnBar → List AdjBar
  | _, [] => []
  | i, b :: r =>
      { toAnnBar := shiftPrices b (totalAdjG l i), adjustment := adjG l i } ::
        applyAdjGAux l (i + 1) r

/-- The generic back-adjustment engine applied to a selected series: record
the per-row adjustment and add the row's total adjustment to each price. -/
def applyAdjG (l : List AnnBar) : List AdjBar := applyAdjGAux l 0 l

/-- The near-roll engine's body (shifted totals). -/
def applyAdjNAux (l : List AnnBar) : ℕ → List AnnBar → List AdjBar
  | _, [] => []
  | i, b :: r =>
      { toAnnBar := shiftPrices b (totalAdjN l i), adjustment := adjN l i } ::
        applyAdjNAux l (i + 1) r

/-- The near-roll back-adjustment engine (shifted totals). -/
def applyAdjN (l : List AnnBar) : List AdjBar := applyAdjNAux l 0 l

/-- `create_rolled_series` from `generic_roll.py`: generic selection followed
by the generic back-adjustment engine. -/
def create_rolled_series (df : List AnnBar) (length : ℤ) : List AdjBar :=
  applyAdjG (selectGeneric df length)

/-- `generic_roll` from `roll_functions.py` is textually the same function as
`create_rolled_series`. -/
def generic_roll (df : List AnnBar) (length : ℤ) : List AdjBar :=
  create_rolled_series df length

/-- The front-month rows (`expiry_length == 0`). -/
def frontRows (df : List AnnBar) : List AnnBar :=
  df.filter (fun b => b.expiry_length == 0)

/-- The second-month rows (`expiry_length == 1`). -/
def secondRows (df : List AnnBar) : List AnnBar :=
  df.filter (fun b => b.expiry_length == 1)

/-- Timestamp comparison against a (midnight) roll date; a missing roll date
(`NaT`) compares false. -/
def tsBeforeRoll (t : Ts) (r : Option ℤ) : Bool :=
  match r with
  | some d => Ts.ltb t ⟨d, 0⟩
  | none => false

/-- `adj_frdf`: front-month rows strictly before their own roll date. -/
def adj_frdf (df : List AnnBar) : List AnnBar :=
  (frontRows df).filter (fun b => tsBeforeRoll b.ts b.contract_roll_date)

/-- The front-month roll date borrowed by a second-month row through the
timestamp-aligned lookup (`.loc[common_idx]`): the roll date of the
front-month row carrying the same timestamp, `NaT` when there is none. -/
def fm_roll_date (df : List AnnBar) (s : AnnBar) : Option ℤ :=
  match (frontRows df).find? (fun f => f.ts == s.ts) with
  | some f => f.contract_roll_date
  | none => none

/-- `adj_sdf`: second-month rows on or after the borrowed front-month roll
date; rows whose `fm_roll_date` is `NaT` are dropped (a `NaT` comparison is
false). -/
def adj_sdf (df : List AnnBar) : List AnnBar :=
  (secondRows df).filter fun s =>
    match fm_roll_date df s with
    | some d => Ts.leb ⟨d, 0⟩ s.ts
    | none => false

/-- Timestamp sort key for `sort_index()`. -/
def tsLt (a b : AnnBar) : Bool := Ts.ltb a.ts b.ts

/-- The near-roll selector: concatenate the two subsets and sort by the
timestamp index. -/
def selectNear (df : List AnnBar) : List AnnBar :=
  sortByKey tsLt (adj_frdf df ++ adj_sdf df)

/-- `near_roll` from `roll_functions.py`: near-roll selection followed by the
near-roll back-adjustment engine. -/
def near_roll (df : List AnnBar) : List AdjBar :=
  applyAdjN (selectNear df)

/-- The price columns of an output row. -/
def priceView (r : AdjBar) : Option ℚ × Option ℚ × Option ℚ × Option ℚ :=
  (r.open_, r.high, r.low, r.close)

/-- The price columns of a selected (raw) row. -/
def priceViewA (b : AnnBar) : Option ℚ × Option ℚ × Option ℚ × Option ℚ :=
  (b.open_, b.high, b.low, b.close)

/-- The near-roll date of the front contract trading on epoch day `d` (its
contract year and month are the bar's own year and month). -/
def rollOfDay (off : ℕ) (d : ℤ) : ℤ := _get_near_roll_date (yearOfDay d) (monthOfDay d) off

-- concrete inputs for witnesses and counterexamples

/-- A two-row generic witness input: a front contract `GCX3` and the next
contract `GCZ3` on consecutive November 2023 days, with a symbol change (a
roll) between them. -/
def dfW : List AnnBar :=
  [{ ts := ⟨8705, 0⟩, symbol := ['G', 'C', 'X', '3'], open_ := some 98, high := some 98,
     low := some 98, close := some 100, contract_year := 2023, contract_month := 11,
     expiry_length := 0, contract_roll_date := none },
   { ts := ⟨8706, 0⟩, symbol := ['G', 'C', 'Z', '3'], open_ := some 105, high := some 105,
     low := some 105, close := some 106, contract_year := 2023, contract_month := 12,
     expiry_length := 1, contract_roll_date := none }]

/-- The first output row of `create_rolled_series dfW 0`: back-adjusted by the
roll gap 105 - 100 = 5. -/
def w0 : AdjBar :=
  { ts := ⟨8705, 0⟩, symbol := ['G', 'C', 'X', '3'], open_ := some 103, high := some 103,
    low := some 103, close := some 105, contract_year := 2023, contract_month := 11,
    expiry_length := 0, contract_roll_date := none, adjustment := 5 }

/-- The second output row of `create_rolled_series dfW 0`: the anchor row,
unadjusted. -/
def w1 : AdjBar :=
  { ts := ⟨8706, 0⟩, symbol := ['G', 'C', 'Z', '3'], open_ := some 105, high := some 105,
    low := some 105, close := some 106, contract_year := 2023, contract_month := 12,
    expiry_length := 1, contract_roll_date := none, adjustment := 0 }

/-- A bar of symbol `GCZ3` on 2023-11-15 (epoch day 8719). -/
def gcz3Bar : Bar :=
  { ts := ⟨8719, 0⟩, symbol := ['G', 'C', 'Z', '3'], open_ := some 1, high := some 1,
    low := some 1, close := some 1 }

/-- Counterexample input for the near-roll continuity claim: with
`DAYS_BEFORE_EXPIRY = 27` the December contract's roll date is 2023-11-30
(epoch day 8734), a day on which both the November and the December contract
trade twice.  Front bars `GCX3` (prices 1) and second-month bars `GCZ3`. -/
def c1Bars : List Bar :=
  [{ ts := ⟨8734, 1⟩, symbol := ['G', 'C', 'X', '3'], open_ := some 1, high := some 1,
     low := some 1, close := some 1 },
   { ts := ⟨8734, 1⟩, symbol := ['G', 'C', 'Z', '3'], open_ := some 99, high := some 99,
     low := some 99, close := some 100 },
   { ts := ⟨8734, 2⟩, symbol := ['G', 'C', 'X', '3'], open_ := some 1, high := some 1,
     low := some 1, close := some 1 },
   { ts := ⟨8734, 2⟩, symbol := ['G', 'C', 'Z', '3'], open_ := some 105, high := some 105,
     low := some 105, close := some 106 }]

/-- `combine_features c1Bars true 27`, written out: `GCX3` rolls at 8705
(2023-11-01), `GCZ3` rolls at 8734 (2023-11-30). -/
def c1Ann : List AnnBar :=
  [{ ts := ⟨8734, 1⟩, symbol := ['G', 'C', 'X', '3'], open_ := some 1, high := some 1,
     low := some 1, close := some 1, contract_year := 2023, contract_month := 11,
     expiry_length := 0, contract_roll_date := some 8705 },
   { ts := ⟨8734, 1⟩, symbol := ['G', 'C', 'Z', '3'], open_ := some 99, high := some 99,
     low := some 99, close := some 100, contract_year := 2023, contract_month := 12,
     expiry_length := 1, contract_roll_date := some 8734 },
   { ts := ⟨8734, 2⟩, symbol := ['G', 'C', 'X', '3'], open_ := some 1, high := some 1,
     low := some 1, close := some 1, contract_year := 2023, contract_month := 11,
     expiry_length := 0, contract_roll_date := some 8705 },
   { ts := ⟨8734, 2⟩, symbol := ['G', 'C', 'Z', '3'], open_ := some 105, high := some 105,
     low := some 105, close := some 106, contract_year := 2023, contract_month := 12,
     expiry_length := 1, contract_roll_date := some 8734 }]

/-- The near-roll selection of `c1Ann`: both front bars fall on or after the
front roll date 8705, so only the two second-month bars remain. -/
def c1Sel : List AnnBar :=
  [{ ts := ⟨8734, 1⟩, symbol := ['G', 'C', 'Z', '3'], open_ := some 99, high := some 99,
     low := some 99, close := some 100, contract_year := 2023, contract_month := 12,
     expiry_length := 1, contract_roll_date := some 8734 },
   { ts := ⟨8734, 2⟩, symbol := ['G', 'C', 'Z', '3'], open_ := some 105, high := some 105,
     low := some 105, close := some 106, contract_year := 2023, contract_month := 12,
     expiry_length := 1, contract_roll_date := some 8734 }]

/-- Counterexample input for the near-roll coverage claim: a single
second-month bar (`GCZ3` on 2023-11-15) with no front-month bar at its
timestamp. -/
def c4Bars : List Bar :=
  [{ ts := ⟨8719, 0⟩, symbol := ['G', 'C', 'Z', '3'], open_ := some 1, high := some 1,
     low := some 1, close := some 1 }]

/-- `combine_features c4Bars true 3`, written out (`GCZ3` rolls at 8758,
2023-12-24, a Sunday kept in place by the Saturday-only check). -/
def c4Ann : List AnnBar :=
  [{ ts := ⟨8719, 0⟩, symbol := ['G', 'C', 'Z', '3'], open_ := some 1, high := some 1,
     low := some 1, close := some 1, contract_year := 2023, contract_month := 12,
     expiry_length := 1, contract_roll_date := some 8758 }]

/-- Witness input for the amended near-roll selector claim: a front bar well
before the November roll date 8728, plus an aligned front/second pair after
it. -/
def w4Bars : List Bar :=
  [{ ts := ⟨8710, 0⟩, symbol := ['G', 'C', 'X', '3'], open_ := some 1, high := some 1,
     low := some 1, close := some 1 },
   { ts := ⟨8731, 1⟩, symbol := ['G', 'C', 'X', '3'], open_ := some 1, high := some 1,
     low := some 1, close := some 1 },
   { ts := ⟨8731, 1⟩, symbol := ['G', 'C', 'Z', '3'], open_ := some 2, high := some 2,
     low := some 2, close := some 2 }]

/-- `combine_features w4Bars true 3`, written out: `GCX3` rolls at 8728
(2023-11-24), `GCZ3` at 8758. -/
def w4Ann : List AnnBar :=
  [{ ts := ⟨8710, 0⟩, symbol := ['G', 'C', 'X', '3'], open_ := some 1, high := some 1,
     low := some 1, close := some 1, contract_year := 2023, contract_month := 11,
     expiry_length := 0, contract_roll_date := some 8728 },
   { ts := ⟨8731, 1⟩, symbol := ['G', 'C', 'X', '3'], open_ := some 1, high := some 1,
     low := some 1, close := some 1, contract_year := 2023, contract_month := 11,
     expiry_length := 0, contract_roll_date := some 8728 },
   { ts := ⟨8731, 1⟩, symbol := ['G', 'C', 'Z', '3'], open_ := some 2, high := some 2,
     low := some 2, close := some 2, contract_year := 2023, contract_month := 12,
     expiry_length := 1, contract_roll_date := some 8758 }]

/-- A one-row series, whose single row has no next row (an undefined roll
gap). -/
def singleAnn : List AnnBar :=
  [{ ts := ⟨8705, 0⟩, symbol := ['G', 'C', 'X', '3'], open_ := some 7, high := some 7,
     low := some 7, close := some 7, contract_year := 2023, contract_month := 11,
     expiry_length := 0, contract_roll_date := none }]

/-- A 4-character symbol whose month code `'A'` is not in the table. -/
def badBar : Bar :=
  { ts := ⟨8719, 0⟩, symbol := ['G', 'C', 'A', '3'], open_ := some 1, high := some 1,
    low := some 1, close := some 1 }

/-! Supporting lemmas. -/

theorem sumFrom_zero (f : ℕ → ℚ) (h : ∀ j, f j = 0) : ∀ k i, sumFrom f i k = 0
  | 0, _ => rfl
  | k + 1, i => by simp [sumFrom, h, sumFrom_zero f h k]

theorem totalAdjG_step (l : List AnnBar) (i : ℕ) (h : i < l.length) :
    totalAdjG l i = adjG l i + totalAdjG l (i + 1) := by
  unfold totalAdjG
  have : l.length - i = (l.length - (i + 1)) + 1 := by omega
  rw [this, sumFrom]

theorem totalAdjG_of_ge (l : List AnnBar) (i : ℕ) (h : l.length ≤ i) :
    totalAdjG l i = 0 := by
  unfold totalAdjG
  have : l.length - i = 0 := by omega
  rw [this, sumFrom]

theorem applyAdjGAux_get? (l : List AnnBar) :
    ∀ (r : List AnnBar) (i j : ℕ),
      (applyAdjGAux l i r).get? j =
        (r.get? j).map fun b =>
          { toAnnBar := shiftPrices b (totalAdjG l (i + j)), adjustment := adjG l (i + j) }
  | [], i, j => by simp [applyAdjGAux]
  | b :: r, i, 0 => by simp [applyAdjGAux]
  | b :: r, i, j + 1 => by
      have h : i + 1 + j = i + (j + 1) := by omega
      simp only [applyAdjGAux, List.get?]
      rw [applyAdjGAux_get? l r (i + 1) j, h]

theorem applyAdjG_get? (l : List AnnBar) (j : ℕ) :
    (applyAdjG l).get? j =
      (l.get? j).map fun b =>
        { toAnnBar := shiftPrices b (totalAdjG l j), adjustment := adjG l j } := by
  simpa using applyAdjGAux_get? l l 0 j

theorem totalAdjN_eq (l : List AnnBar) (i : ℕ) :
    totalAdjN l i = sumFrom (adjN l) (i + 1) (l.length - (i + 1)) := rfl

theorem totalAdjN_last (l : List AnnBar) (h : l.length ≤ i + 1) :
    totalAdjN l i = 0 := by
  unfold totalAdjN
  have : l.length - (i + 1) = 0 := by omega
  rw [this, sumFrom]

theorem applyAdjNAux_get? (l : List AnnBar) :
    ∀ (r : List AnnBar) (i j : ℕ),
      (applyAdjNAux l i r).get? j =
        (r.get? j).map fun b =>
          { toAnnBar := shiftPrices b (totalAdjN l (i + j)), adjustment := adjN l (i + j) }
  | [], i, j => by simp [applyAdjNAux]
  | b :: r, i, 0 => by simp [applyAdjNAux]
  | b :: r, i, j + 1 => by
      have h : i + 1 + j = i + (j + 1) := by omega
      simp only [applyAdjNAux, List.get?]
      rw [applyAdjNAux_get? l r (i + 1) j, h]

theorem applyAdjN_get? (l : List AnnBar) (j : ℕ) :
    (applyAdjN l).get? j =
      (l.get? j).map fun b =>
        { toAnnBar := shiftPrices b (totalAdjN l j), adjustment := adjN l j } := by
  simpa using applyAdjNAux_get? l l 0 j

theorem shiftPrices_close (b : AnnBar) (t : ℚ) : (shiftPrices b t).close = b.close.map (· + t) := rfl

theorem shiftPrices_open (b : AnnBar) (t : ℚ) : (shiftPrices b t).open_ = b.open_.map (· + t) := rfl

theorem shiftPrices_symbol (b : AnnBar) (t : ℚ) : (shiftPrices b t).symbol = b.symbol := rfl

-- generic continuity core
theorem continuity_generic (l : List AnnBar) (i : ℕ) (r r' : AdjBar)
    (h : (applyAdjG l).get? i = some r) (h' : (applyAdjG l).get? (i + 1) = some r')
    (hsym : r.symbol ≠ r'.symbol) (hc : r.close.isSome) (ho : r'.open_.isSome) :
    r.close = r'.open_ := by
  rw [applyAdjG_get? l i] at h
  rw [applyAdjG_get? l (i + 1)] at h'
  rcases hb : l.get? i with _ | b
  · rw [hb] at h; exact absurd h (by simp)
  rcases hb' : l.get? (i + 1) with _ | b'
  · rw [hb'] at h'; exact absurd h' (by simp)
  rw [hb] at h
  rw [hb'] at h'
  obtain ⟨hlt, -⟩ := List.get?_eq_some.mp hb
  simp only [Option.map_some'] at h h'
  have hr := Option.some.inj h
  have hr' := Option.some.inj h'
  subst hr hr'
  have hbs : b.symbol ≠ b'.symbol := hsym
  rcases hcs : b.close with _ | c
  · exfalso; revert hc; simp [shiftPrices, hcs]
  rcases hos : b'.open_ with _ | o
  · exfalso; revert ho; simp [shiftPrices, hos]
  have hroll : isRollDayG l i = true := by
    unfold isRollDayG
    rw [hb, hb']
    simpa using hbs
  have hgap : rollGap l i = some (o - c) := by
    unfold rollGap
    rw [hb, hb']
    simp [hcs, hos]
  have hadj : adjG l i = o - c := by simp [adjG, hroll, hgap]
  have hstep := totalAdjG_step l i hlt
  show (shiftPrices b (totalAdjG l i)).close = (shiftPrices b' (totalAdjG l (i + 1))).open_
  simp [shiftPrices, hcs, hos, hstep, hadj]
  ring

theorem map_add_zero (o : Option ℚ) : o.map (· + (0 : ℚ)) = o := by cases o <;> simp

theorem shiftPrices_zero (b : AnnBar) : shiftPrices b 0 = b := by
  simp [shiftPrices, map_add_zero]

theorem getLast?_eq_get? (l : List α) : l.getLast? = l.get? (l.length - 1) := by
  induction l with
  | nil => rfl
  | cons a l ih =>
      cases l with
      | nil => rfl
      | cons b m => simpa [List.getLast?] using ih

theorem applyAdjGAux_length (l : List AnnBar) :
    ∀ (r : List AnnBar) (i : ℕ), (applyAdjGAux l i r).length = r.length
  | [], _ => rfl
  | b :: r, i => by simp [applyAdjGAux, applyAdjGAux_length l r (i + 1)]

theorem applyAdjG_length (l : List AnnBar) : (applyAdjG l).length = l.length :=
  applyAdjGAux_length l l 0

theorem applyAdjNAux_length (l : List AnnBar) :
    ∀ (r : List AnnBar) (i : ℕ), (applyAdjNAux l i r).length = r.length
  | [], _ => rfl
  | b :: r, i => by simp [applyAdjNAux, applyAdjNAux_length l r (i + 1)]

theorem applyAdjN_length (l : List AnnBar) : (applyAdjN l).length = l.length :=
  applyAdjNAux_length l l 0

theorem adjG_last (l : List AnnBar) (h : l.length = i + 1) : adjG l i = 0 := by
  have hnone : l.get? (i + 1) = none := by
    rw [List.get?_eq_none]
    omega
  rcases hb : l.get? i with _ | b
  · rw [List.get?_eq_none] at hb
    omega
  have hroll : isRollDayG l i = true := by
    unfold isRollDayG
    rw [hb, hnone]
  have hgap : rollGap l i = none := by
    unfold rollGap
    rw [hnone]
  simp [adjG, hroll, hgap]

theorem totalAdjG_last_zero (l : List AnnBar) : totalAdjG l (l.length - 1) = 0 := by
  rcases hn : l.length with _ | n
  · exact totalAdjG_of_ge l _ (by omega)
  · have h1 : n + 1 - 1 = n := by omega
    rw [h1, totalAdjG_step l n (by omega), adjG_last l (by omega),
      totalAdjG_of_ge l (n + 1) (by omega)]
    ring

theorem totalAdjN_last_zero (l : List AnnBar) : totalAdjN l (l.length - 1) = 0 :=
  totalAdjN_last l (by omega)

theorem applyAdjG_last_prices (l : List AnnBar) :
    (applyAdjG l).getLast?.map priceView = l.getLast?.map priceViewA := by
  rw [getLast?_eq_get?, getLast?_eq_get?, applyAdjG_length, applyAdjG_get?]
  rcases hb : l.get? (l.length - 1) with _ | b
  · simp
  · simp [priceView, priceViewA, totalAdjG_last_zero, shiftPrices_zero]

theorem applyAdjN_last_prices (l : List AnnBar) :
    (applyAdjN l).getLast?.map priceView = l.getLast?.map priceViewA := by
  rw [getLast?_eq_get?, getLast?_eq_get?, applyAdjN_length, applyAdjN_get?]
  rcases hb : l.get? (l.length - 1) with _ | b
  · simp
  · simp [priceView, priceViewA, totalAdjN_last_zero, shiftPrices_zero]

-- C7 core: re-running the generic engine yields zero adjustments
theorem adjG_rerun_zero (l : List AnnBar) (i : ℕ) :
    adjG ((applyAdjG l).map AdjBar.toAnnBar) i = 0 := by
  have hmap : ∀ j, ((applyAdjG l).map AdjBar.toAnnBar).get? j =
      (l.get? j).map fun b => shiftPrices b (totalAdjG l j) := by
    intro j
    rw [List.get?_map, applyAdjG_get? l j]
    rcases l.get? j with _ | b <;> simp
  rcases hb : l.get? i with _ | b
  · have : isRollDayG ((applyAdjG l).map AdjBar.toAnnBar) i = false := by
      unfold isRollDayG
      rw [hmap i, hb]
      simp
    simp [adjG, this]
  obtain ⟨hlt, -⟩ := List.get?_eq_some.mp hb
  rcases hb' : l.get? (i + 1) with _ | b'
  · have hroll : isRollDayG ((applyAdjG l).map AdjBar.toAnnBar) i = true := by
      unfold isRollDayG
      rw [hmap i, hmap (i + 1), hb, hb']
      simp
    have hgap : rollGap ((applyAdjG l).map AdjBar.toAnnBar) i = none := by
      unfold rollGap
      rw [hmap (i + 1), hb']
      simp
    simp [adjG, hroll, hgap]
  by_cases hsym : b.symbol = b'.symbol
  · have : isRollDayG ((applyAdjG l).map AdjBar.toAnnBar) i = false := by
      unfold isRollDayG
      rw [hmap i, hmap (i + 1), hb, hb']
      simp [shiftPrices, hsym]
    simp [adjG, this]
  · have hroll0 : isRollDayG l i = true := by
      unfold isRollDayG
      rw [hb, hb']
      simpa using hsym
    have hroll : isRollDayG ((applyAdjG l).map AdjBar.toAnnBar) i = true := by
      unfold isRollDayG
      rw [hmap i, hmap (i + 1), hb, hb']
      simpa [shiftPrices] using hsym
    rcases hcs : b.close with _ | c
    · have hgap : rollGap ((applyAdjG l).map AdjBar.toAnnBar) i = none := by
        unfold rollGap
        rw [hmap (i + 1), hmap i, hb, hb']
        simp [shiftPrices, hcs]
      simp [adjG, hroll, hgap]
    rcases hos : b'.open_ with _ | o
    · have hgap : rollGap ((applyAdjG l).map AdjBar.toAnnBar) i = none := by
        unfold rollGap
        rw [hmap (i + 1), hmap i, hb, hb']
        simp [shiftPrices, hos]
      simp [adjG, hroll, hgap]
    · have hgap0 : rollGap l i = some (o - c) := by
        unfold rollGap
        rw [hb, hb']
        simp [hcs, hos]
      have hadj0 : adjG l i = o - c := by simp [adjG, hroll0, hgap0]
      have hgap : rollGap ((applyAdjG l).map AdjBar.toAnnBar) i =
          some ((o + totalAdjG l (i + 1)) - (c + totalAdjG l i)) := by
        unfold rollGap
        rw [hmap (i + 1), hmap i, hb, hb']
        simp [shiftPrices, hcs, hos]
      have hstep := totalAdjG_step l i hlt
      have hval : adjG ((applyAdjG l).map AdjBar.toAnnBar) i =
          (o + totalAdjG l (i + 1)) - (c + totalAdjG l i) := by
        simp [adjG, hroll, hgap]
      rw [hval, hstep, hadj0]
      ring

theorem totalAdjG_rerun_zero (l : List AnnBar) (i : ℕ) :
    totalAdjG ((applyAdjG l).map AdjBar.toAnnBar) i = 0 :=
  sumFrom_zero _ (adjG_rerun_zero l) _ i

theorem rerun_prices_eq (l : List AnnBar) :
    (applyAdjG ((applyAdjG l).map AdjBar.toAnnBar)).map priceView =
      (applyAdjG l).map priceView := by
  apply List.ext_get?
  intro n
  rw [List.get?_map, List.get?_map, applyAdjG_get?, List.get?_map, applyAdjG_get?]
  rcases hb : l.get? n with _ | b <;>
    simp [priceView, priceViewA, totalAdjG_rerun_zero, shiftPrices_zero, shiftPrices]

theorem rerun_adjustment_zero (l : List AnnBar) :
    ∀ x ∈ applyAdjG ((applyAdjG l).map AdjBar.toAnnBar), x.adjustment = 0 := by
  intro x hx
  obtain ⟨n, hn⟩ := List.mem_iff_get?.mp hx
  rw [applyAdjG_get?] at hn
  rcases hb : ((applyAdjG l).map AdjBar.toAnnBar).get? n with _ | b
  · rw [hb] at hn; cases hn
  · rw [hb] at hn
    have := Option.some.inj hn
    have hx' : x.adjustment = adjG ((applyAdjG l).map AdjBar.toAnnBar) n := by
      rw [← this]
    rw [hx', adjG_rerun_zero]

theorem mem_insertSorted (lt : AnnBar → AnnBar → Bool) (a x : AnnBar) :
    ∀ l : List AnnBar, x ∈ insertSorted lt a l ↔ x = a ∨ x ∈ l
  | [] => by simp [insertSorted]
  | b :: l => by
      unfold insertSorted
      by_cases h : lt b a = true
      · rw [if_pos h, List.mem_cons, mem_insertSorted lt a x l, List.mem_cons]
        tauto
      · rw [if_neg h, List.mem_cons, List.mem_cons]

theorem mem_sortByKey (lt : AnnBar → AnnBar → Bool) (x : AnnBar) :
    ∀ l : List AnnBar, x ∈ sortByKey lt l ↔ x ∈ l
  | [] => Iff.rfl
  | a :: l => by
      unfold sortByKey
      rw [mem_insertSorted, mem_sortByKey lt x l]
      simp

theorem mem_dropDupDates (x : AnnBar) :
    ∀ (l : List AnnBar) (seen : List ℤ), x ∈ dropDupDates seen l → x ∈ l
  | [], _, h => by simp [dropDupDates] at h
  | b :: l, seen, h => by
      unfold dropDupDates at h
      by_cases hmem : dateOf b ∈ seen
      · rw [if_pos hmem] at h
        exact List.mem_cons_of_mem b (mem_dropDupDates x l seen h)
      · rw [if_neg hmem] at h
        rcases List.mem_cons.mp h with h1 | h2
        · exact h1 ▸ List.mem_cons_self b l
        · exact List.mem_cons_of_mem b (mem_dropDupDates x l _ h2)

theorem dropDupDates_nodup :
    ∀ (l : List AnnBar) (seen : List ℤ),
      ((dropDupDates seen l).map dateOf).Nodup ∧
        ∀ d ∈ (dropDupDates seen l).map dateOf, d ∉ seen
  | [], seen => by simp [dropDupDates]
  | b :: l, seen => by
      unfold dropDupDates
      by_cases hmem : dateOf b ∈ seen
      · rw [if_pos hmem]
        exact dropDupDates_nodup l seen
      · rw [if_neg hmem]
        obtain ⟨ih1, ih2⟩ := dropDupDates_nodup l (dateOf b :: seen)
        refine ⟨?_, ?_⟩
        · simp only [List.map_cons, List.nodup_cons]
          refine ⟨fun hc => ?_, ih1⟩
          exact ih2 _ hc (List.mem_cons_self _ _)
        · intro d hd
          simp only [List.map_cons, List.mem_cons] at hd
          rcases hd with h1 | h2
          · exact h1 ▸ hmem
          · exact fun hc => ih2 d h2 (List.mem_cons_of_mem _ hc)

theorem mem_selectGeneric (df : List AnnBar) (length : ℤ) (x : AnnBar)
    (h : x ∈ selectGeneric df length) :
    x ∈ df ∧ (x.expiry_length = length ∨ x.expiry_length = length + 1) := by
  unfold selectGeneric at h
  have h1 := mem_dropDupDates x _ _ h
  rw [mem_sortByKey] at h1
  obtain ⟨hmem, hp⟩ := List.mem_filter.mp h1
  refine ⟨hmem, ?_⟩
  revert hp
  by_cases h0 : x.expiry_length = length
  · exact fun _ => Or.inl h0
  · by_cases h1' : x.expiry_length = length + 1
    · exact fun _ => Or.inr h1'
    · intro hp
      exfalso
      revert hp
      simp [h0, h1']

theorem selectGeneric_dates_nodup (df : List AnnBar) (length : ℤ) :
    ((selectGeneric df length).map dateOf).Nodup :=
  (dropDupDates_nodup _ []).1

theorem mem_applyAdjG (l : List AnnBar) (x : AdjBar) (hx : x ∈ applyAdjG l) :
    ∃ b ∈ l, ∃ i, x = { toAnnBar := shiftPrices b (totalAdjG l i), adjustment := adjG l i } := by
  obtain ⟨n, hn⟩ := List.mem_iff_get?.mp hx
  rw [applyAdjG_get?] at hn
  rcases hb : l.get? n with _ | b
  · rw [hb] at hn; cases hn
  · rw [hb] at hn
    exact ⟨b, List.get?_mem hb, n, (Option.some.inj hn).symm⟩

theorem applyAdjG_dates (l : List AnnBar) :
    (applyAdjG l).map (fun r => dateOf r.toAnnBar) = l.map dateOf := by
  apply List.ext_get?
  intro n
  rw [List.get?_map, List.get?_map, applyAdjG_get?]
  rcases hb : l.get? n with _ | b <;> simp [dateOf, shiftPrices]

theorem monthStep_bounds :
    ∀ (fuel m y r : ℕ), m ≤ monthStep fuel m y r ∧ monthStep fuel m y r ≤ m + fuel
  | 0, m, _, _ => by simp [monthStep]
  | fuel + 1, m, y, r => by
      unfold monthStep
      by_cases h : daysInMonth y m ≤ r
      · rw [if_pos h]
        have := monthStep_bounds fuel (m + 1) y (r - daysInMonth y m)
        omega
      · rw [if_neg h]
        omega

theorem monthOfDay_bounds (d : ℤ) : 1 ≤ monthOfDay d ∧ monthOfDay d ≤ 12 := by
  have heq : monthOfDay d =
      monthStep 11 1 (yearStep (d.toNat + 1) 2000 d.toNat).1
        (yearStep (d.toNat + 1) 2000 d.toNat).2 := rfl
  have := monthStep_bounds 11 1 (yearStep (d.toNat + 1) 2000 d.toNat).1
    (yearStep (d.toNat + 1) 2000 d.toNat).2
  rw [heq]
  omega

theorem FUTURE_MONTH_MAP_bounds (c : Char) (k : ℕ) (h : FUTURE_MONTH_MAP c = some k) :
    1 ≤ k ∧ k ≤ 12 := by
  unfold FUTURE_MONTH_MAP at h
  split at h <;> cases h <;> omega

theorem annotateRow_some (m : Bool) (off : ℕ) (b : Bar) (a : AnnBar)
    (h : annotateRow m off b = some a) :
    a.toBar = b ∧
      (1 ≤ a.contract_month ∧ a.contract_month ≤ 12) ∧
      a.expiry_length =
        ((a.contract_year : ℤ) - (yearOfDay a.ts.day : ℤ)) * 12 +
          (a.contract_month : ℤ) - (monthOfDay a.ts.day : ℤ) ∧
      a.contract_roll_date =
        (if m then some (_get_near_roll_date a.contract_year a.contract_month off) else none) := by
  unfold annotateRow at h
  rcases hy : _get_contract_year b with _ | cy
  · rw [hy] at h; cases h
  rcases hg : b.symbol.get? 2 with _ | c
  · rw [hy, hg] at h; simp at h
  rcases hm : FUTURE_MONTH_MAP c with _ | cm
  · rw [hy, hg] at h; simp [hm] at h
  rw [hy, hg] at h
  simp only [Option.some_bind] at h
  rw [hm] at h
  simp only [Option.map_some'] at h
  have ha := Option.some.inj h
  subst ha
  exact ⟨rfl, FUTURE_MONTH_MAP_bounds c cm hm, rfl, rfl⟩

theorem annotateAll_mem (m : Bool) (off : ℕ) :
    ∀ (bl : List Bar) (ann : List AnnBar), annotateAll m off bl = some ann →
      ∀ a ∈ ann, ∃ b ∈ bl, annotateRow m off b = some a
  | [], ann, h => by
      unfold annotateAll at h
      have := Option.some.inj h
      subst this
      intro a ha
      simp at ha
  | b :: bl, ann, h => by
      unfold annotateAll at h
      rcases hr : annotateRow m off b with _ | a0
      · rw [hr] at h; cases h
      rcases ht : annotateAll m off bl with _ | r
      · rw [hr, ht] at h; cases h
      rw [hr, ht] at h
      have := Option.some.inj h
      subst this
      intro a ha
      rcases List.mem_cons.mp ha with h1 | h2
      · exact ⟨b, List.mem_cons_self _ _, h1 ▸ hr⟩
      · obtain ⟨b', hb', hval⟩ := annotateAll_mem m off bl r ht a h2
        exact ⟨b', List.mem_cons_of_mem _ hb', hval⟩

theorem annotateAll_none (m : Bool) (off : ℕ) :
    ∀ (bl : List Bar) (b : Bar), b ∈ bl → annotateRow m off b = none →
      annotateAll m off bl = none
  | [], b, hb, _ => by simp at hb
  | b0 :: bl, b, hb, hnone => by
      unfold annotateAll
      rcases List.mem_cons.mp hb with h1 | h2
      · subst h1
        rw [hnone]
      · rw [annotateAll_none m off bl b h2 hnone]
        rcases annotateRow m off b0 with _ | a <;> rfl

theorem combine_features_mem (df : List Bar) (m : Bool) (off : ℕ) (ann : List AnnBar)
    (h : combine_features df m off = some ann) (a : AnnBar) (ha : a ∈ ann) :
    ∃ b ∈ df, b.symbol.length = 4 ∧ annotateRow m off b = some a := by
  obtain ⟨b, hb, hval⟩ := annotateAll_mem m off _ ann h a ha
  obtain ⟨hmem, hp⟩ := List.mem_filter.mp hb
  exact ⟨b, hmem, by simpa using hp, hval⟩


theorem ltb_midnight (t : Ts) (r : ℤ) : Ts.ltb t ⟨r, 0⟩ = true ↔ t.day < r := by
  simp [Ts.ltb]

theorem leb_midnight (r : ℤ) (t : Ts) : Ts.leb ⟨r, 0⟩ t = true ↔ r ≤ t.day := by
  simp [Ts.leb]
  omega

theorem mem_frontRows (df : List AnnBar) (x : AnnBar) :
    x ∈ frontRows df ↔ x ∈ df ∧ x.expiry_length = 0 := by
  unfold frontRows
  rw [List.mem_filter]
  simp

theorem mem_secondRows (df : List AnnBar) (x : AnnBar) :
    x ∈ secondRows df ↔ x ∈ df ∧ x.expiry_length = 1 := by
  unfold secondRows
  rw [List.mem_filter]
  simp

theorem expiry0_roll (raw : List Bar) (off : ℕ) (ann : List AnnBar)
    (h : combine_features raw true off = some ann) (x : AnnBar) (hx : x ∈ ann)
    (h0 : x.expiry_length = 0) :
    x.contract_roll_date = some (rollOfDay off x.ts.day) := by
  obtain ⟨b, -, -, hval⟩ := combine_features_mem raw true off ann h x hx
  obtain ⟨-, hcm, hel, hroll⟩ := annotateRow_some true off b x hval
  have hM := monthOfDay_bounds x.ts.day
  have hyear : x.contract_year = yearOfDay x.ts.day := by
    rw [h0] at hel
    have h12 : ((x.contract_year : ℤ) - (yearOfDay x.ts.day : ℤ)) * 12 =
        (monthOfDay x.ts.day : ℤ) - (x.contract_month : ℤ) := by linarith
    omega
  have hmonth : x.contract_month = monthOfDay x.ts.day := by
    rw [h0] at hel
    omega
  rw [hroll, if_pos rfl, hyear, hmonth]
  rfl

theorem mem_adj_frdf (df : List AnnBar) (x : AnnBar) :
    x ∈ adj_frdf df ↔
      (x ∈ df ∧ x.expiry_length = 0) ∧ tsBeforeRoll x.ts x.contract_roll_date = true := by
  unfold adj_frdf
  rw [List.mem_filter, mem_frontRows]

theorem mem_adj_sdf (df : List AnnBar) (x : AnnBar) :
    x ∈ adj_sdf df ↔
      (x ∈ df ∧ x.expiry_length = 1) ∧
        ∃ d, fm_roll_date df x = some d ∧ Ts.leb ⟨d, 0⟩ x.ts = true := by
  unfold adj_sdf
  rw [List.mem_filter, mem_secondRows]
  constructor
  · rintro ⟨h1, h2⟩
    refine ⟨h1, ?_⟩
    rcases hd : fm_roll_date df x with _ | d
    · rw [hd] at h2; cases h2
    · rw [hd] at h2; exact ⟨d, rfl, h2⟩
  · rintro ⟨h1, d, hd, hle⟩
    exact ⟨h1, by rw [hd]; exact hle⟩

theorem near_subsets_disjoint_core (raw : List Bar) (off : ℕ) (ann : List AnnBar)
    (h : combine_features raw true off = some ann) (d : ℤ)
    (hf : d ∈ (adj_frdf ann).map dateOf) : d ∉ (adj_sdf ann).map dateOf := by
  obtain ⟨x, hx, hxd⟩ := List.mem_map.mp hf
  obtain ⟨⟨hxann, hx0⟩, hxlt⟩ := (mem_adj_frdf ann x).mp hx
  have hxr := expiry0_roll raw off ann h x hxann hx0
  rw [hxr] at hxlt
  have hxlt' : x.ts.day < rollOfDay off x.ts.day := by
    have : Ts.ltb x.ts ⟨rollOfDay off x.ts.day, 0⟩ = true := hxlt
    exact (ltb_midnight _ _).mp this
  intro hs
  obtain ⟨s, hsmem, hsd⟩ := List.mem_map.mp hs
  obtain ⟨⟨hsann, -⟩, r, hr, hrle⟩ := (mem_adj_sdf ann s).mp hsmem
  unfold fm_roll_date at hr
  rcases hfind : (frontRows ann).find? (fun f => f.ts == s.ts) with _ | f
  · rw [hfind] at hr; cases hr
  rw [hfind] at hr
  simp only at hr
  have hfts : f.ts = s.ts := by
    have := List.find?_some hfind
    simpa using this
  have hfmem : f ∈ frontRows ann := List.mem_of_find?_eq_some hfind
  obtain ⟨hfann, hf0⟩ := (mem_frontRows ann f).mp hfmem
  have hfr := expiry0_roll raw off ann h f hfann hf0
  rw [hfr] at hr
  have hreq : r = rollOfDay off f.ts.day := (Option.some.inj hr).symm
  have hle : r ≤ s.ts.day := (leb_midnight _ _).mp hrle
  rw [hreq, hfts] at hle
  have hdates : x.ts.day = s.ts.day := by
    rw [dateOf] at hxd hsd
    omega
  rw [hdates] at hxlt'
  omega

theorem near_subsets_cover (df : List AnnBar) (d : ℤ)
    (hd : d ∈ (adj_frdf df ++ adj_sdf df).map dateOf) :
    d ∈ (df.filter fun b => b.expiry_length == 0 || b.expiry_length == 1).map dateOf := by
  obtain ⟨x, hx, hxd⟩ := List.mem_map.mp hd
  refine List.mem_map.mpr ⟨x, List.mem_filter.mpr ⟨?_, ?_⟩, hxd⟩
  · rcases List.mem_append.mp hx with h1 | h2
    · exact ((mem_adj_frdf df x).mp h1).1.1
    · exact ((mem_adj_sdf df x).mp h2).1.1
  · rcases List.mem_append.mp hx with h1 | h2
    · have := ((mem_adj_frdf df x).mp h1).1.2
      simp [this]
    · have := ((mem_adj_sdf df x).mp h2).1.2
      simp [this]

theorem insertSorted_pairwise (lt : AnnBar → AnnBar → Bool)
    (hA : ∀ x y, lt x y = true → lt y x = false)
    (hT : ∀ x y z, lt y x = false → lt z y = false → lt z x = false) (a : AnnBar) :
    ∀ l : List AnnBar, l.Pairwise (fun x y => lt y x = false) →
      (insertSorted lt a l).Pairwise (fun x y => lt y x = false)
  | [], _ => by simp [insertSorted]
  | b :: l, hl => by
      rw [List.pairwise_cons] at hl
      unfold insertSorted
      by_cases h : lt b a = true
      · rw [if_pos h, List.pairwise_cons]
        refine ⟨fun y hy => ?_, insertSorted_pairwise lt hA hT a l hl.2⟩
        rcases (mem_insertSorted lt a y l).mp hy with h1 | h2
        · exact h1 ▸ hA b a h
        · exact hl.1 y h2
      · rw [if_neg h, List.pairwise_cons]
        have hba : lt b a = false := by
          revert h
          cases lt b a <;> simp
        refine ⟨fun y hy => ?_, List.pairwise_cons.mpr hl⟩
        rcases List.mem_cons.mp hy with h1 | h2
        · subst h1
          exact hba
        · exact hT a b y hba (hl.1 y h2)

theorem sortByKey_pairwise (lt : AnnBar → AnnBar → Bool)
    (hA : ∀ x y, lt x y = true → lt y x = false)
    (hT : ∀ x y z, lt y x = false → lt z y = false → lt z x = false) :
    ∀ l : List AnnBar, (sortByKey lt l).Pairwise (fun x y => lt y x = false)
  | [] => List.Pairwise.nil
  | a :: l => insertSorted_pairwise lt hA hT a _ (sortByKey_pairwise lt hA hT l)

theorem dropDupDates_sublist : ∀ (l : List AnnBar) (seen : List ℤ),
    (dropDupDates seen l).Sublist l
  | [], _ => by simp [dropDupDates]
  | b :: l, seen => by
      unfold dropDupDates
      by_cases h : dateOf b ∈ seen
      · rw [if_pos h]
        exact (dropDupDates_sublist l seen).cons b
      · rw [if_neg h]
        exact (dropDupDates_sublist l _).cons₂ b

theorem selectGeneric_dates_sorted (df : List AnnBar) (length : ℤ) :
    ((selectGeneric df length).map dateOf).Pairwise (· ≤ ·) := by
  have hA : ∀ x y : AnnBar, dateExpiryLt x y = true → dateExpiryLt y x = false := by
    intro x y
    simp [dateExpiryLt]
    omega
  have hT : ∀ x y z : AnnBar, dateExpiryLt y x = false → dateExpiryLt z y = false →
      dateExpiryLt z x = false := by
    intro x y z
    simp [dateExpiryLt]
    omega
  have hsorted := sortByKey_pairwise dateExpiryLt hA hT
    (List.filter (fun b => b.expiry_length == length || b.expiry_length == length + 1) df)
  have hsub : (selectGeneric df length).Pairwise (fun x y => dateExpiryLt y x = false) :=
    List.Pairwise.sublist (dropDupDates_sublist _ _) hsorted
  rw [List.pairwise_map]
  refine hsub.imp ?_
  intro a b hab
  revert hab
  simp [dateExpiryLt]
  omega

theorem selectNear_ts_sorted (df : List AnnBar) :
    (selectNear df).Pairwise (fun x y => tsLt y x = false) := by
  have hA : ∀ x y : AnnBar, tsLt x y = true → tsLt y x = false := by
    intro x y
    simp [tsLt, Ts.ltb]
    omega
  have hT : ∀ x y z : AnnBar, tsLt y x = false → tsLt z y = false → tsLt z x = false := by
    intro x y z
    simp [tsLt, Ts.ltb]
    omega
  exact sortByKey_pairwise tsLt hA hT _

theorem applyAdjN_dates (l : List AnnBar) :
    (applyAdjN l).map (fun r => dateOf r.toAnnBar) = l.map dateOf := by
  apply List.ext_get?
  intro n
  rw [List.get?_map, List.get?_map, applyAdjN_get?]
  rcases hb : l.get? n with _ | b <;> simp [dateOf, shiftPrices]

theorem charDigit_le_nine (c : Char) (d : ℕ) (hd : charDigit c = some d) : d ≤ 9 := by
  unfold charDigit at hd
  split at hd
  · have := Option.some.inj hd
    omega
  · cases hd

theorem contract_year_val (b : Bar) (c : Char) (d : ℕ)
    (hc : b.symbol.get? 3 = some c) (hd : charDigit c = some d) :
    _get_contract_year b =
      some (if d < yearOfDay b.ts.day % 10
        then ((yearOfDay b.ts.day + 9) / 10) * 10 + d
        else (yearOfDay b.ts.day / 10) * 10 + d) := by
  unfold _get_contract_year
  rw [hc]
  simp only [Option.some_bind]
  rw [hd]
  simp only [Option.map_some']

-- claim theorems

/-- Claim C1 — counterexample.  Under the near-roll policy the continuity law
fails: on the concrete input `c1Bars` (annotated with `DAYS_BEFORE_EXPIRY =
27` to `c1Ann`), row 0 of the near-roll output is a roll day with a next row
and defined prices, yet its adjusted close (100) differs from the next row's
adjusted open (105): the shifted cumulative total leaves the gap open. -/
theorem C1_near_continuity_counterexample :
    combine_features c1Bars true 27 = some c1Ann ∧
    isRollDayN (selectNear c1Ann) 0 = true ∧
    ((near_roll c1Ann).get? 0).map (fun r => r.close) = some (some 100) ∧
    ((near_roll c1Ann).get? 1).map (fun r => r.open_) = some (some 105) ∧
    ((near_roll c1Ann).get? 0).map (fun r => r.close) ≠
      ((near_roll c1Ann).get? 1).map (fun r => r.open_) := by
  have hsel : selectNear c1Ann = c1Sel := by decide
  have h0 : ((near_roll c1Ann).get? 0).map (fun r => r.close) = some (some 100) := by
    show ((applyAdjN (selectNear c1Ann)).get? 0).map (fun r => r.close) = some (some 100)
    rw [hsel]
    simp +decide [applyAdjN, applyAdjNAux, totalAdjN, sumFrom, adjN, isRollDayN, rollGap,
      shiftPrices, dateOf, c1Sel]
  have h1 : ((near_roll c1Ann).get? 1).map (fun r => r.open_) = some (some 105) := by
    show ((applyAdjN (selectNear c1Ann)).get? 1).map (fun r => r.open_) = some (some 105)
    rw [hsel]
    simp +decide [applyAdjN, applyAdjNAux, totalAdjN, sumFrom, adjN, isRollDayN, rollGap,
      shiftPrices, dateOf, c1Sel]
  refine ⟨by decide, by decide, h0, h1, ?_⟩
  rw [h0, h1]
  intro hcon
  have := Option.some.inj (Option.some.inj hcon)
  norm_num at this

/-- Claim C1 (amended): the continuity law holds under the generic policy:
for every roll day (a `symbol` change) of `create_rolled_series`/
`generic_roll`'s output with a next row and a defined close/open pair, the
adjusted close equals the next row's adjusted open.  The near-roll policy
does not satisfy the law (see the counterexample). -/
theorem C1_generic_continuity (df : List AnnBar) (length : ℤ) (i : ℕ) (r r' : AdjBar)
    (h : (create_rolled_series df length).get? i = some r)
    (h' : (create_rolled_series df length).get? (i + 1) = some r')
    (hsym : r.symbol ≠ r'.symbol) (hc : r.close.isSome) (ho : r'.open_.isSome) :
    r.close = r'.open_ :=
  continuity_generic (selectGeneric df length) i r r' h h' hsym hc ho

/-- Witness for the amended claim C1 at the concrete input `dfW`. -/
theorem C1_generic_continuity_witness :
    (create_rolled_series dfW 0).get? 0 = some w0 ∧
    (create_rolled_series dfW 0).get? 1 = some w1 ∧
    w0.symbol ≠ w1.symbol ∧ w0.close = w1.open_ := by
  have hsel : selectGeneric dfW 0 = dfW := by decide
  have h0 : (create_rolled_series dfW 0).get? 0 = some w0 := by
    show ((applyAdjG (selectGeneric dfW 0)).get? 0) = some w0
    rw [hsel]
    simp +decide [applyAdjG, applyAdjGAux, totalAdjG, sumFrom, adjG, isRollDayG, rollGap,
      shiftPrices, dfW, w0]
    norm_num
  have h1 : (create_rolled_series dfW 0).get? 1 = some w1 := by
    show ((applyAdjG (selectGeneric dfW 0)).get? 1) = some w1
    rw [hsel]
    simp +decide [applyAdjG, applyAdjGAux, totalAdjG, sumFrom, adjG, isRollDayG, rollGap,
      shiftPrices, dfW, w1]
  exact ⟨h0, h1, by decide,
    C1_generic_continuity dfW 0 0 w0 w1 h0 h1 (by decide) (by decide) (by decide)⟩

/-- Claim C2: unadjusted-anchor invariant.  Both outputs are date-ascending,
the total adjustment of the last (latest-date) row is zero in both engines,
and the last output row's open/high/low/close equal the raw selected bar's
prices. -/
theorem C2_unadjusted_anchor (df : List AnnBar) (length : ℤ) :
    totalAdjG (selectGeneric df length) ((selectGeneric df length).length - 1) = 0 ∧
    (create_rolled_series df length).getLast?.map priceView =
      (selectGeneric df length).getLast?.map priceViewA ∧
    ((create_rolled_series df length).map (fun r => dateOf r.toAnnBar)).Pairwise (· ≤ ·) ∧
    totalAdjN (selectNear df) ((selectNear df).length - 1) = 0 ∧
    (near_roll df).getLast?.map priceView = (selectNear df).getLast?.map priceViewA ∧
    ((near_roll df).map (fun r => dateOf r.toAnnBar)).Pairwise (· ≤ ·) := by
  refine ⟨totalAdjG_last_zero _, applyAdjG_last_prices _, ?_, totalAdjN_last_zero _,
    applyAdjN_last_prices _, ?_⟩
  · show ((applyAdjG (selectGeneric df length)).map (fun r => dateOf r.toAnnBar)).Pairwise _
    rw [applyAdjG_dates]
    exact selectGeneric_dates_sorted df length
  · show ((applyAdjN (selectNear df)).map (fun r => dateOf r.toAnnBar)).Pairwise _
    rw [applyAdjN_dates]
    rw [List.pairwise_map]
    refine (selectNear_ts_sorted df).imp ?_
    intro a b hab
    revert hab
    simp [tsLt, Ts.ltb, dateOf]
    omega

/-- Claim C3: the code moves the roll date one day earlier only when it is a
Saturday (`weekday() == 5`); a Sunday result stays in place, contradicting
the in-source comment and the specified weekend rule.  For contract month
March 2023 with the default offset 3, the 3rd-from-last business day is
2023-03-29 and the roll date is Sunday 2023-03-26 (weekday 6), which the code
keeps while the weekend rule yields Saturday 2023-03-25. -/
theorem C3_sunday_roll_date :
    (bdaysOfMonth 2023 3).get? ((bdaysOfMonth 2023 3).length - 3) =
      some (epochDayOfDate 2023 3 29) ∧
    _get_near_roll_date 2023 3 3 = (epochDayOfDate 2023 3 26 : ℕ) ∧
    weekdayOfDay ((epochDayOfDate 2023 3 26 : ℕ) : ℤ) = 6 ∧
    near_roll_date_spec 2023 3 3 = ((epochDayOfDate 2023 3 26 : ℕ) : ℤ) - 1 ∧
    _get_near_roll_date 2023 3 3 ≠ near_roll_date_spec 2023 3 3 := by decide

/-- Claim C4 — counterexample.  The near-roll coverage claim fails: on
`c4Bars` (one second-month bar, no front-month bar) the two selected subsets
are empty while the date 8719 does carry a row with `expiry_length ∈ {0, 1}`,
so the union of the subsets' dates is not the full date set. -/
theorem C4_coverage_counterexample :
    combine_features c4Bars true 3 = some c4Ann ∧
    (adj_frdf c4Ann ++ adj_sdf c4Ann).map dateOf = [] ∧
    (c4Ann.filter fun b => b.expiry_length == 0 || b.expiry_length == 1).map dateOf =
      [8719] := by decide

/-- Claim C4 (amended): for every annotated input the front-month and
second-month subsets of `near_roll` have disjoint date sets, and their union
is contained in (but need not equal) the set of dates carrying a row with
`expiry_length ∈ {0, 1}`. -/
theorem C4_near_selector_disjoint_subset (raw : List Bar) (off : ℕ) (ann : List AnnBar)
    (h : combine_features raw true off = some ann) :
    (∀ d, d ∈ (adj_frdf ann).map dateOf → d ∉ (adj_sdf ann).map dateOf) ∧
    (∀ d, d ∈ (adj_frdf ann ++ adj_sdf ann).map dateOf →
        d ∈ (ann.filter fun b => b.expiry_length == 0 || b.expiry_length == 1).map dateOf) :=
  ⟨fun d hd => near_subsets_disjoint_core raw off ann h d hd,
   fun d hd => near_subsets_cover ann d hd⟩

/-- Witness for the amended claim C4 at the concrete input `w4Bars`. -/
theorem C4_near_selector_disjoint_subset_witness :
    (8710 : ℤ) ∉ (adj_sdf w4Ann).map dateOf ∧
    (8710 : ℤ) ∈ (w4Ann.filter fun b =>
        b.expiry_length == 0 || b.expiry_length == 1).map dateOf :=
  ⟨(C4_near_selector_disjoint_subset w4Bars 3 w4Ann (by decide)).1 8710 (by decide),
   (C4_near_selector_disjoint_subset w4Bars 3 w4Ann (by decide)).2 8710 (by decide)⟩

/-- Claim C5: contract-year decoding.  For a bar in year `Y` whose 4-character
symbol ends in digit `d`, `_get_contract_year` returns `ceil(Y/10)*10 + d`
(`= ((Y+9)/10)*10 + d`) when `d < Y % 10` and `floor(Y/10)*10 + d` otherwise;
the result's last digit is always `d`, and `d = Y % 10` resolves to `Y`
itself. -/
theorem C5_contract_year_decode (b : Bar) (c : Char) (d : ℕ)
    (hlen : b.symbol.length = 4) (hc : b.symbol.get? 3 = some c)
    (hd : charDigit c = some d) :
    _get_contract_year b =
        some (if d < yearOfDay b.ts.day % 10
          then ((yearOfDay b.ts.day + 9) / 10) * 10 + d
          else (yearOfDay b.ts.day / 10) * 10 + d) ∧
      (∀ y, _get_contract_year b = some y → y % 10 = d) ∧
      (d = yearOfDay b.ts.day % 10 →
        _get_contract_year b = some (yearOfDay b.ts.day)) := by
  have hd9 : d ≤ 9 := charDigit_le_nine c d hd
  have hval := contract_year_val b c d hc hd
  refine ⟨hval, ?_, ?_⟩
  · intro y hy
    rw [hval] at hy
    have hy' := Option.some.inj hy
    subst hy'
    split <;> omega
  · intro hEq
    rw [hval, if_neg (by omega)]
    congr 1
    omega

/-- Witness for claim C5: `GCZ3` quoted on 2023-11-15 decodes to contract
year 2023 (the `d = Y % 10` edge case). -/
theorem C5_contract_year_decode_witness :
    _get_contract_year gcz3Bar = some (yearOfDay gcz3Bar.ts.day) :=
  (C5_contract_year_decode gcz3Bar '3' 3 (by decide) (by decide) (by decide)).2.2 (by decide)

/-- Claim C6: generic selector output invariant: every output row of
`create_rolled_series` has `expiry_length ∈ {N, N+1}` and no two output rows
share a calendar date. -/
theorem C6_generic_selector_invariant (df : List AnnBar) (N : ℕ) :
    ((create_rolled_series df (N : ℤ)).all fun r =>
        r.expiry_length == (N : ℤ) || r.expiry_length == (N : ℤ) + 1) = true ∧
    ((create_rolled_series df (N : ℤ)).map (fun r => dateOf r.toAnnBar)).Nodup := by
  constructor
  · rw [List.all_eq_true]
    intro r hr
    obtain ⟨b, hb, i, hrb⟩ := mem_applyAdjG _ r hr
    have hexp := (mem_selectGeneric df _ b hb).2
    subst hrb
    rcases hexp with hE | hE <;> simp [shiftPrices, hE]
  · show ((applyAdjG (selectGeneric df (N : ℤ))).map (fun r => dateOf r.toAnnBar)).Nodup
    rw [applyAdjG_dates]
    exact selectGeneric_dates_nodup df _

/-- Witness for claim C6 at the concrete input `dfW`, `N = 0`. -/
theorem C6_generic_selector_invariant_witness :
    ((create_rolled_series dfW (0 : ℕ)).map (fun r => dateOf r.toAnnBar)).Nodup :=
  (C6_generic_selector_invariant dfW 0).2

/-- Claim C7: the back-adjustment engine is idempotent on
`create_rolled_series` output: re-running it (same symbol-change roll
detection, gap computation, reverse cumulative sum, uniform add) records a
zero adjustment on every row and leaves every price unchanged. -/
theorem C7_back_adjustment_idempotent (df : List AnnBar) (length : ℤ) :
    ((applyAdjG ((create_rolled_series df length).map AdjBar.toAnnBar)).all fun r =>
        r.adjustment == 0) = true ∧
    (applyAdjG ((create_rolled_series df length).map AdjBar.toAnnBar)).map priceView =
      (create_rolled_series df length).map priceView := by
  constructor
  · rw [List.all_eq_true]
    intro r hr
    have hz := rerun_adjustment_zero (selectGeneric df length) r hr
    simpa using hz
  · exact rerun_prices_eq (selectGeneric df length)

/-- Witness for claim C7 at the concrete input `dfW`, `N = 0`. -/
theorem C7_back_adjustment_idempotent_witness :
    (applyAdjG ((create_rolled_series dfW 0).map AdjBar.toAnnBar)).map priceView =
      (create_rolled_series dfW 0).map priceView :=
  (C7_back_adjustment_idempotent dfW 0).2

/-- Claim C8: a 4-character symbol whose month code is outside the table
makes `combine_features` fail (the Python `KeyError` propagates); symbols of
any other length are silently filtered out, never an error, and every
annotated output row has a 4-character symbol. -/
theorem C8_month_code_failure (df : List Bar) (m : Bool) (off : ℕ) :
    (∀ b ∈ df, b.symbol.length = 4 → (b.symbol.get? 2).bind FUTURE_MONTH_MAP = none →
        combine_features df m off = none) ∧
    combine_features df m off =
      combine_features (df.filter fun b => b.symbol.length == 4) m off ∧
    (∀ ann, combine_features df m off = some ann → ∀ a ∈ ann, a.symbol.length = 4) := by
  refine ⟨?_, ?_, ?_⟩
  · intro b hb hlen hkey
    apply annotateAll_none m off _ b
    · exact List.mem_filter.mpr ⟨hb, by simpa using hlen⟩
    · unfold annotateRow
      simp only [Option.bind_eq_none, Option.map_eq_none']
      intro cy hcy c2 hc2
      rw [hc2] at hkey
      simpa using hkey
  · unfold combine_features
    congr 1
    rw [List.filter_filter]
    congr 1
    funext b
    rw [Bool.and_self]
  · intro ann h a ha
    obtain ⟨b, -, hlen, hval⟩ := combine_features_mem df m off ann h a ha
    obtain ⟨htb, -, -, -⟩ := annotateRow_some m off b a hval
    have hsymb : a.symbol = b.symbol := congrArg Bar.symbol htb
    rw [hsymb]
    exact hlen

/-- Witness for claim C8: the symbol `GCA3` (month code `'A'`) aborts
annotation. -/
theorem C8_month_code_failure_witness : combine_features [badBar] false 3 = none :=
  (C8_month_code_failure [badBar] false 3).1 badBar (by decide) (by decide) (by decide)

/-- Claim C9: boundary-gap containment: a row whose roll gap is undefined (no
next row, or a missing open/close in the pair) gets adjustment exactly 0 in
both the generic and the near-roll engine — no NaN enters the cumulative
total. -/
theorem C9_boundary_gap_contained (l : List AnnBar) (i : ℕ) (hi : i < l.length)
    (hgap : rollGap l i = none) :
    ((applyAdjG l).get? i).map (fun r => r.adjustment) = some 0 ∧
    ((applyAdjN l).get? i).map (fun r => r.adjustment) = some 0 := by
  obtain ⟨b, hb⟩ : ∃ b, l.get? i = some b := by
    rcases hx : l.get? i with _ | b
    · rw [List.get?_eq_none] at hx
      omega
    · exact ⟨b, rfl⟩
  rw [applyAdjG_get?, applyAdjN_get?, hb]
  constructor <;> simp [adjG, adjN, hgap]

/-- Witness for claim C9: a one-row series (no next row). -/
theorem C9_boundary_gap_contained_witness :
    ((applyAdjG singleAnn).get? 0).map (fun r => r.adjustment) = some 0 ∧
    ((applyAdjN singleAnn).get? 0).map (fun r => r.adjustment) = some 0 :=
  C9_boundary_gap_contained singleAnn 0 (by decide) (by decide)

/-- Claim C10: decoded-year range: `_get_contract_year` always lands in
`[Y, Y + 9]` for a bar of year `Y` — never before the bar's own year, never
more than 9 years out (both source files contain the identical function). -/
theorem C10_contract_year_range (b : Bar) (c : Char) (d : ℕ) (y : ℕ)
    (hlen : b.symbol.length = 4) (hc : b.symbol.get? 3 = some c)
    (hd : charDigit c = some d) (hy : _get_contract_year b = some y) :
    yearOfDay b.ts.day ≤ y ∧ y ≤ yearOfDay b.ts.day + 9 := by
  have hd9 : d ≤ 9 := charDigit_le_nine c d hd
  have hval := contract_year_val b c d hc hd
  rw [hval] at hy
  have hy' := Option.some.inj hy
  subst hy'
  split <;> omega

/-- Witness for claim C10 at `GCZ3` on 2023-11-15. -/
theorem C10_contract_year_range_witness :
    yearOfDay gcz3Bar.ts.day ≤ 2023 ∧ 2023 ≤ yearOfDay gcz3Bar.ts.day + 9 :=
  C10_contract_year_range gcz3Bar '3' 3 2023 (by decide) (by decide) (by decide) (by decide)
